import Mathlib

/-!
Verification development for the Geopolitical Market Game Tracker frontend
(`frontend/src`), together with a model of the equilibrium-solver contract
from the design document for the part of the system whose source is not in
this tree.

Conventions used throughout: TypeScript string-literal unions become Lean
inductives or `List String`; JS numbers become `ℚ`; `null` / `undefined`
become `Option`; React component state together with browser-held state
(localStorage, interval handles) is a Lean structure passed explicitly, and
an event handler is a function from the old state to the new state.
-/

namespace GameTheory

/-- Job statuses of the TypeScript union in the return type of
`backtestApi.getJobStatus` (`frontend/src/api/client.ts`):
`'pending' | 'running' | 'completed' | 'failed'`. -/
inductive JobStatus
  | pending
  | running
  | completed
  | failed
deriving DecidableEq, Repr

/-- The string spelled by each member of the client status union. -/
def JobStatus.str : JobStatus → String
  | .pending => "pending"
  | .running => "running"
  | .completed => "completed"
  | .failed => "failed"

/-- The status strings of the client's job-status interface, in source
order, exactly the literals of the union in `getJobStatus`. -/
def clientJobStatuses : List String :=
  [JobStatus.pending.str, JobStatus.running.str,
   JobStatus.completed.str, JobStatus.failed.str]

/-- Job statuses named by the design document (§3, Job entity):
`status ∈ {pending, running, completed, failed, cancelled}`. This definition
follows the document's words, for comparison with `clientJobStatuses`,
which is taken from the source. -/
def specJobStatuses : List String :=
  ["pending", "running", "completed", "failed", "cancelled"]

/-- Rendered outcome of `CountryMarketCard.formatPrice`: either the literal
string `'N/A'` or a locale-formatted number produced with the given
`maximumFractionDigits` option. -/
inductive PriceFormat
  | na
  | formatted (maxFractionDigits : Nat)
deriving DecidableEq, Repr

/-- `CountryMarketCard.formatPrice`
(`frontend/src/components/dashboard/CountryMarketCard.tsx`): returns
`'N/A'` when the value is `null` or `=== 0`; otherwise formats with
`maximumFractionDigits` 0 / 2 / 4 chosen by the magnitude tests
`value > 10000` and `value > 100`. -/
def formatPrice : Option ℚ → PriceFormat
  | none => .na
  | some v =>
      if v = 0 then .na
      else if v > 10000 then .formatted 0
      else if v > 100 then .formatted 2
      else .formatted 4

/-- The `BacktestResult` record of `frontend/src/types`: one backtest
sample row as delivered inside a completed job's result payload. -/
structure BacktestResult where
  date : String
  predicted_scenario : String
  actual_risk_off_next_week : Bool
  hawk_dominant : Bool
  japan_action : String
  china_action : String
  usa_action : String
  germany_action : String
  taiwan_action : String
deriving DecidableEq, Repr

/-- The `isCorrect` flag computed per row of the results table in
`BacktestView`: `result.hawk_dominant === result.actual_risk_off_next_week`. -/
def isCorrect (r : BacktestResult) : Bool :=
  r.hawk_dominant == r.actual_risk_off_next_week

/-- The `accuracy` field of `chartData` in `BacktestView`:
1 when `hawk_dominant === actual_risk_off_next_week`, else 0. -/
def chartAccuracy (r : BacktestResult) : Nat :=
  if r.hawk_dominant == r.actual_risk_off_next_week then 1 else 0

/-- The `Correct` slice of `accuracyData` in `BacktestView`: the length of
`results` filtered by `hawk_dominant === actual_risk_off_next_week`. -/
def correctCount (rs : List BacktestResult) : Nat :=
  (rs.filter fun r => r.hawk_dominant == r.actual_risk_off_next_week).length

/-- The `Incorrect` slice of `accuracyData` in `BacktestView`: the length
of `results` filtered by the negated comparison. -/
def incorrectCount (rs : List BacktestResult) : Nat :=
  (rs.filter fun r => r.hawk_dominant != r.actual_risk_off_next_week).length

/-- `defaultNoiseLevels` in `SensitivityView`: an 11-element array whose
element i is `i * 0.1`. -/
def defaultNoiseLevels : List ℚ :=
  (List.range 11).map fun i => (i : ℚ) * (1 / 10)

/-- Initial value of the `nRuns` state in `SensitivityView` (`useState(100)`). -/
def nRunsInitial : Nat := 100

/-- Body of the POST to `/sensitivity-analysis` issued by
`sensitivityApi.runAnalysis` (`client.ts`). -/
structure SensitivityRequest where
  noise_levels : Option (List ℚ)
  n_runs : Nat
deriving DecidableEq, Repr

/-- `sensitivityApi.runAnalysis` (`client.ts`): passes the optional noise
levels through unchanged and defaults the trial count to 100. -/
def runAnalysis (noiseLevels : Option (List ℚ)) (nRuns : Option Nat) : SensitivityRequest :=
  { noise_levels := noiseLevels, n_runs := nRuns.getD 100 }

/-- The query function of `SensitivityView`: sends the user's levels only
when the list is non-empty, otherwise sends no levels at all
(`noiseLevels.length > 0 ? noiseLevels : undefined`), with the current
`nRuns` state. -/
def sensitivitySubmit (stateNoise : List ℚ) (stateNRuns : Nat) : SensitivityRequest :=
  runAnalysis (if stateNoise.length > 0 then some stateNoise else none) (some stateNRuns)

/-- Modelled from the spec: the sensitivity engine's default noise levels,
"an ordered list of noise levels (default 0.0 through 1.0 in steps of
0.1)" (§4.5). The engine is backend code not present in this tree; a
request carrying no levels runs at these defaults. -/
def specDefaultNoiseLevels : List ℚ :=
  [0, 1/10, 2/10, 3/10, 4/10, 5/10, 6/10, 7/10, 8/10, 9/10, 1]

/-- Modelled from the spec: the noise levels the analysis actually runs
with — the request's levels when present, the engine default otherwise. -/
def effectiveNoiseLevels (req : SensitivityRequest) : List ℚ :=
  req.noise_levels.getD specDefaultNoiseLevels

/-- Body of the POST to `/backtest` issued by `backtestApi.startBacktest`. -/
structure BacktestRequest where
  start_date : String
  end_date : String
  freq : String
deriving DecidableEq, Repr

/-- `backtestApi.startBacktest` (`client.ts`): the `freq` parameter
defaults to `'W-FRI'` when not supplied. -/
def startBacktest (startDate endDate : String) (freq : Option String) : BacktestRequest :=
  { start_date := startDate, end_date := endDate, freq := freq.getD "W-FRI" }

/-- Initial value of the `freq` state of `BacktestView`: `useState` over
the union `'W-FRI' | 'D' | 'M'`, starting at `'W-FRI'`. -/
def initialFreq : String := "W-FRI"

/-- The option values of the frequency select rendered by `BacktestView`,
in source order. -/
def freqOptions : List String := ["W-FRI", "D", "M"]

/-- A JS `Date` value, represented by its epoch instant in milliseconds
(JS dates carry millisecond precision). -/
abbrev DateMs := Int

/-- An ISO-8601 timestamp string, represented by the instant it denotes.
`Date.prototype.toISOString` prints down to milliseconds, so the string
determines the instant exactly and the round-trip through `new Date(iso)`
is lossless. -/
structure IsoString where
  instant : DateMs
deriving DecidableEq, Repr

/-- `currentDate.toISOString()` as used by the store's persistence options
(`appStore.ts`). -/
def toISOString (d : DateMs) : IsoString := { instant := d }

/-- `new Date(iso)` as used by `onRehydrateStorage` (`appStore.ts`). -/
def dateOfIso (s : IsoString) : DateMs := s.instant

/-- The `View` union of `appStore.ts`. -/
inductive View
  | dashboard
  | backtest
  | sensitivity
  | historical
deriving DecidableEq, Repr

/-- The Zustand store state of `useAppStore` (`appStore.ts`), data fields
only; the setters are plain single-field updates. -/
structure AppState where
  currentDate : DateMs
  activeView : View
  selectedCountry : Option String
  useOptimizedModel : Bool
deriving DecidableEq, Repr

/-- The initial store state created by `useAppStore`: the current date,
the dashboard view, no selected country, optimized model on. -/
def initialAppState (now : DateMs) : AppState :=
  { currentDate := now, activeView := .dashboard,
    selectedCountry := none, useOptimizedModel := true }

/-- The persisted shape produced by the store's field-selection option:
only `currentDate` (as an ISO string), `activeView` and
`useOptimizedModel` are written to localStorage. -/
structure PersistedAppState where
  currentDate : IsoString
  activeView : View
  useOptimizedModel : Bool
deriving DecidableEq, Repr

/-- The store's field-selection function (`appStore.ts`): picks the three
persisted fields, converting the date to an ISO string. -/
def persistPartial (s : AppState) : PersistedAppState :=
  { currentDate := toISOString s.currentDate, activeView := s.activeView,
    useOptimizedModel := s.useOptimizedModel }

/-- Rehydration on reload: Zustand's persist middleware merges the
persisted fields over a freshly created initial state, and
`onRehydrateStorage` then converts the ISO string back into a `Date`. -/
def rehydrate (now : DateMs) (p : PersistedAppState) : AppState :=
  { initialAppState now with
    currentDate := dateOfIso p.currentDate
    activeView := p.activeView
    useOptimizedModel := p.useOptimizedModel }

/-- `Math.max(...strategy)` as computed per actor row in
`PredictionMatrix` (`maxProb`): the maximum probability of the actor's
mixed-strategy vector. Rendered rows are non-empty; the empty case takes
an arbitrary value. -/
def maxProb : List ℚ → ℚ
  | [] => 0
  | p :: rest => rest.foldl max p

/-- The dominance flag of an action cell in `PredictionMatrix`:
`prob === maxProb` for the cell's probability. -/
def isDominant (strategy : List ℚ) (i : Nat) : Bool :=
  decide (strategy.getD i 0 = maxProb strategy)

/-- A response of the job-status endpoint as typed by
`backtestApi.getJobStatus`: status, progress, current step, optional
result and error payloads. Only the result's presence matters to the view
logic, so it is carried as a flag. -/
structure StatusResponse where
  status : JobStatus
  progress : ℚ
  current_step : Option String
  hasResult : Bool
  error : Option String
deriving DecidableEq, Repr

/-- The state of `BacktestView` relevant to job polling: the React state
fields, the interval handle (represented by its period in milliseconds
while active), and the `backtest_job_id` slot of localStorage. -/
structure ViewState where
  jobId : Option String
  progress : ℚ
  currentStep : String
  jobStatus : Option JobStatus
  hasData : Bool
  error : Option String
  intervalMs : Option Nat
  stored : Option String
deriving DecidableEq, Repr

/-- `BacktestView.checkJobStatus`, success path: record status, progress
and step; on completed-with-result or on failed, clear the polling
interval and remove the stored job id; on running or pending, ensure a
2000 ms polling interval is active (creating it only when absent). -/
def checkJobStatus (r : StatusResponse) (s : ViewState) : ViewState :=
  let s1 : ViewState :=
    { s with jobStatus := some r.status, progress := r.progress,
             currentStep := r.current_step.getD "" }
  if r.status = .completed ∧ r.hasResult = true then
    { s1 with hasData := true, intervalMs := none, stored := none }
  else if r.status = .failed then
    { s1 with error := some (r.error.getD "Backtest failed"),
              intervalMs := none, stored := none }
  else if r.status = .running ∨ r.status = .pending then
    { s1 with intervalMs := some (s1.intervalMs.getD 2000) }
  else s1

/-- Iterated polling: the interval drives every poll after the current
one, so a further poll happens only while an interval is active. -/
def pollRun : ViewState → List StatusResponse → ViewState
  | s, [] => s
  | s, r :: rs => if s.intervalMs.isSome then pollRun (checkJobStatus r s) rs else s

/-- The response of `backtestApi.startBacktest`: job id plus initial
status and message strings. -/
structure StartResponse where
  job_id : String
  status : String
  message : String
deriving DecidableEq, Repr

/-- `BacktestView.handleRunBacktest`, success path: reset result and error
state, record the returned job id with status pending, persist the id
under `backtest_job_id`, and kick off a poll of that id (the second
component). -/
def handleRunBacktest (resp : StartResponse) (s : ViewState) : ViewState × String :=
  ({ s with error := none, hasData := false, progress := 0, currentStep := "",
            jobId := some resp.job_id, jobStatus := some .pending,
            stored := some resp.job_id },
   resp.job_id)

/-- The mount effect of `BacktestView`: when localStorage holds a job id,
adopt it as the current job and poll it (the second component); otherwise
do nothing. -/
def mountEffect (s : ViewState) : ViewState × Option String :=
  match s.stored with
  | some id => ({ s with jobId := some id }, some id)
  | none => (s, none)

/-- Modelled from the spec: the fixed global action catalog
{Hawkish, De-escalate, Stimulus, Military} (§3, Action). The equilibrium
engine itself is backend code not present in this tree. -/
inductive GameAction
  | hawkish
  | deescalate
  | stimulus
  | military
deriving DecidableEq, Repr

/-- The full action catalog, in the fixed order used for tie-breaking. -/
def allActions : List GameAction :=
  [.hawkish, .deescalate, .stimulus, .military]

/-- Total probability mass of a per-actor strategy over the catalog. -/
def total (σ : GameAction → ℚ) : ℚ :=
  (allActions.map σ).sum

/-- Modelled from the spec: one actor's slice of a valid `PayoffMatrix` as
the solver consumes it — the actor's allowed-action subset (non-empty by
the ConfigurationError guarantee of §7) and the payoff vector the actor
sees at each best-response sweep (under the mean-field assumption the
vector moves with the opponents' aggregate stance, so it is indexed by
the sweep number). -/
structure ActorSpec where
  allowed : List GameAction
  payoffAt : Nat → GameAction → ℚ

/-- Modelled from the spec: the solver's starting iterate, uniform on the
actor's allowed actions and zero elsewhere. -/
def uniformOn (allowed : List GameAction) : GameAction → ℚ :=
  fun a => if a ∈ allowed then (1 : ℚ) / allowed.length else 0

/-- Modelled from the spec: the first allowed action attaining the maximal
payoff — ties broken by the fixed action order (§4.2). -/
def argmaxPayoff (payoff : GameAction → ℚ) : List GameAction → Option GameAction
  | [] => none
  | a :: rest =>
      match argmaxPayoff payoff rest with
      | none => some a
      | some b => if payoff a < payoff b then some b else some a

/-- Modelled from the spec: the pure best response, a point distribution
on the maximizing allowed action. -/
def bestResponse (allowed : List GameAction) (payoff : GameAction → ℚ) :
    GameAction → ℚ :=
  match argmaxPayoff payoff allowed with
  | none => fun _ => 0
  | some b => fun a => if a = b then 1 else 0

/-- Modelled from the spec: damped best-response iteration ("best-response
iteration or equivalent convex relaxation", §4.2): each sweep moves the
iterate the fraction `lam` of the way towards the current best response;
`lam = 1` is plain best-response iteration. The iterate at the iteration
budget is the strategy the solver returns, whatever the convergence flag
says. -/
def nashIterate (A : ActorSpec) (lam : ℚ) : Nat → GameAction → ℚ
  | 0 => uniformOn A.allowed
  | k + 1 => fun a =>
      (1 - lam) * nashIterate A lam k a +
        lam * bestResponse A.allowed (A.payoffAt k) a

end GameTheory

namespace GameTheory

/-- Helper: filtering a list by a predicate and by its negation splits the
list's length. -/
theorem length_filter_split {α : Type} (p : α → Bool) (l : List α) :
    (l.filter p).length + (l.filter fun a => !(p a)).length = l.length := by
  induction l with
  | nil => rfl
  | cons a l ih =>
      cases h : p a <;> simp [List.filter_cons, h] <;> omega

/-- C1 counterexample: the claim says the client's job-status interface
covers exactly {pending, running, completed, failed, cancelled}; but
`"cancelled"` is in the documented set and absent from the client union, so
the two do not cover the same statuses. -/
theorem client_status_missing_cancelled :
    "cancelled" ∈ specJobStatuses ∧ "cancelled" ∉ clientJobStatuses ∧
    clientJobStatuses ≠ specJobStatuses := by
  refine ⟨by decide, by decide, by decide⟩

/-- C1 (amended): every status in the client's job-status union belongs to
the documented status set {pending, running, completed, failed, cancelled},
and the client interface covers exactly the four statuses pending, running,
completed, failed — `cancelled` is the one documented status it omits. -/
theorem client_status_exact :
    clientJobStatuses = ["pending", "running", "completed", "failed"] ∧
    clientJobStatuses.all (fun s => specJobStatuses.contains s) = true ∧
    specJobStatuses = clientJobStatuses ++ ["cancelled"] := by
  refine ⟨by decide, by decide, by decide⟩

/-- C10: `formatPrice` returns `'N/A'` exactly for `null` or `0`; any other
price is locale-formatted with at most 0 fraction digits when above 10000,
at most 2 when above 100, and at most 4 otherwise; in particular a genuine
price of exactly 0 renders identically to missing data. -/
theorem formatPrice_spec :
    (∀ v : Option ℚ, formatPrice v = .na ↔ v = none ∨ v = some 0) ∧
    formatPrice (some 0) = formatPrice none ∧
    (∀ q : ℚ, q ≠ 0 →
      (10000 < q → formatPrice (some q) = .formatted 0) ∧
      (q ≤ 10000 → 100 < q → formatPrice (some q) = .formatted 2) ∧
      (q ≤ 100 → formatPrice (some q) = .formatted 4)) := by
  refine ⟨?_, rfl, ?_⟩
  · intro v
    cases v with
    | none => simp [formatPrice]
    | some q =>
        by_cases h0 : q = 0
        · subst h0; simp [formatPrice]
        · simp only [formatPrice, if_neg h0, Option.some.injEq]
          constructor
          · intro h
            split_ifs at h
          · rintro (h | h)
            · exact Option.noConfusion h
            · exact absurd h h0
  · intro q hq
    refine ⟨?_, ?_, ?_⟩
    · intro h
      simp [formatPrice, hq, h]
    · intro h1 h2
      have hn : ¬ (10000 : ℚ) < q := not_lt.mpr h1
      simp [formatPrice, hq, hn, h2]
    · intro h1
      have hn2 : ¬ (10000 : ℚ) < q := by
        exact not_lt.mpr (le_trans h1 (by norm_num))
      have hn3 : ¬ (100 : ℚ) < q := not_lt.mpr h1
      simp [formatPrice, hq, hn2, hn3]

/-- C10 witness: the branches of `formatPrice_spec` at concrete prices. -/
theorem formatPrice_spec_witness :
    formatPrice (some 20000) = .formatted 0 ∧
    formatPrice (some 500) = .formatted 2 ∧
    formatPrice (some 5) = .formatted 4 ∧
    formatPrice (some 0) = .na := by
  refine ⟨(formatPrice_spec.2.2 20000 (by norm_num)).1 (by norm_num),
          (formatPrice_spec.2.2 500 (by norm_num)).2.1 (by norm_num) (by norm_num),
          (formatPrice_spec.2.2 5 (by norm_num)).2.2 (by norm_num),
          (formatPrice_spec.1 (some 0)).mpr (Or.inr rfl)⟩

/-- C4: a backtest record is displayed and counted as Correct exactly when
its predicted `hawk_dominant` flag equals the realized
`actual_risk_off_next_week` outcome — the results-table flag, the chart
accuracy value and the pie-chart Correct filter all agree — and the
Correct and Incorrect counts partition the records. -/
theorem backtest_correct_partition :
    (∀ rs : List BacktestResult, correctCount rs + incorrectCount rs = rs.length) ∧
    (∀ r : BacktestResult,
      (isCorrect r = true ↔ r.hawk_dominant = r.actual_risk_off_next_week) ∧
      (chartAccuracy r = 1 ↔ isCorrect r = true) ∧
      (isCorrect r = false ↔ r.hawk_dominant ≠ r.actual_risk_off_next_week)) := by
  constructor
  · intro rs
    exact length_filter_split (fun r => r.hawk_dominant == r.actual_risk_off_next_week) rs
  · intro r
    refine ⟨by simp [isCorrect], ?_, by simp [isCorrect]⟩
    unfold chartAccuracy isCorrect
    cases h : (r.hawk_dominant == r.actual_risk_off_next_week) <;> simp

/-- C5: submitting the sensitivity view with untouched inputs sends no
noise levels and 100 trials; the engine then runs at its default levels,
which coincide with the frontend's displayed defaults: 11 ordered levels
with element i equal to i·0.1. -/
theorem sensitivity_defaults :
    (sensitivitySubmit [] nRunsInitial).noise_levels = none ∧
    (sensitivitySubmit [] nRunsInitial).n_runs = 100 ∧
    effectiveNoiseLevels (sensitivitySubmit [] nRunsInitial) = specDefaultNoiseLevels ∧
    defaultNoiseLevels = specDefaultNoiseLevels ∧
    defaultNoiseLevels.length = 11 ∧
    (∀ i : Nat, i < 11 → defaultNoiseLevels.getD i 0 = (i : ℚ) * (1 / 10)) := by
  refine ⟨rfl, rfl, rfl, ?_, by decide, ?_⟩
  · simp only [defaultNoiseLevels, specDefaultNoiseLevels, List.range_succ,
      List.range_zero, List.map_append, List.map_cons, List.map_nil, List.nil_append,
      List.cons_append]
    norm_num
  · intro i hi
    interval_cases i <;>
      simp only [defaultNoiseLevels, List.range_succ, List.range_zero,
        List.map_append, List.map_cons, List.map_nil, List.nil_append,
        List.cons_append, List.getD_cons_zero, List.getD_cons_succ] <;>
      norm_num

/-- C5 witness: the element formula of `sensitivity_defaults` at index 3. -/
theorem sensitivity_defaults_witness :
    defaultNoiseLevels.getD 3 0 = (3 : ℚ) * (1 / 10) :=
  sensitivity_defaults.2.2.2.2.2 3 (by norm_num)

/-- C7: a backtest submitted without touching the frequency select carries
frequency 'W-FRI' — the view state starts at 'W-FRI' and the client's own
parameter default is also 'W-FRI' — and the select offers exactly the
three frequencies 'W-FRI', 'D' and 'M'. -/
theorem backtest_freq_defaults :
    initialFreq = "W-FRI" ∧
    (∀ s e : String, (startBacktest s e (some initialFreq)).freq = "W-FRI") ∧
    (∀ s e : String, (startBacktest s e none).freq = "W-FRI") ∧
    freqOptions = ["W-FRI", "D", "M"] ∧
    initialFreq ∈ freqOptions :=
  ⟨rfl, fun _ _ => rfl, fun _ _ => rfl, rfl, by decide⟩

/-- Helper: a left fold by `max` yields either its seed or a list member. -/
theorem foldl_max_mem (l : List ℚ) (a : ℚ) :
    l.foldl max a = a ∨ l.foldl max a ∈ l := by
  induction l generalizing a with
  | nil => exact Or.inl rfl
  | cons x xs ih =>
      rcases ih (max a x) with h | h
      · rcases max_choice a x with hm | hm
        · exact Or.inl (by rw [List.foldl_cons, h, hm])
        · refine Or.inr ?_

          rw [List.foldl_cons, h, hm]
          exact List.mem_cons_self x xs
      · exact Or.inr (List.mem_cons_of_mem x h)

/-- Helper: a left fold by `max` bounds its seed and every list member. -/
theorem le_foldl_max (l : List ℚ) (a : ℚ) :
    a ≤ l.foldl max a ∧ ∀ x ∈ l, x ≤ l.foldl max a := by
  induction l generalizing a with
  | nil => exact ⟨le_refl a, by simp⟩
  | cons y ys ih =>
      obtain ⟨h1, h2⟩ := ih (max a y)
      refine ⟨le_trans (le_max_left a y) h1, ?_⟩
      intro x hx
      rcases List.mem_cons.mp hx with rfl | hx
      · exact le_trans (le_max_right a x) h1
      · exact h2 x hx

/-- Helper: the row maximum of a non-empty strategy occurs in the row. -/
theorem maxProb_mem (s : List ℚ) (h : s ≠ []) : maxProb s ∈ s := by
  cases s with
  | nil => exact absurd rfl h
  | cons p rest =>
      rcases foldl_max_mem rest p with h1 | h1
      · show rest.foldl max p ∈ p :: rest
        rw [h1]
        exact List.mem_cons_self p rest
      · exact List.mem_cons_of_mem p h1

/-- Helper: every probability of a strategy row is at most the row maximum. -/
theorem le_maxProb (s : List ℚ) : ∀ x ∈ s, x ≤ maxProb s := by
  cases s with
  | nil => simp
  | cons p rest =>
      intro x hx
      rcases List.mem_cons.mp hx with rfl | hx
      · exact (le_foldl_max rest x).1
      · exact (le_foldl_max rest p).2 x hx

/-- Helper: in-range `getD` agrees with `get`. -/
theorem getD_eq_get (s : List ℚ) (i : Nat) (h : i < s.length) :
    s.getD i 0 = s.get ⟨i, h⟩ := by
  simp [List.getD_eq_getElem?_getD, List.getElem?_eq_getElem h, List.get_eq_getElem]

/-- C6: in an actor's row of `PredictionMatrix`, a cell is marked dominant
precisely when its probability equals the maximum of the row's
mixed-strategy vector; that maximum occurs in the row, so the
highest-probability action is always marked, and every tying maximal cell
is marked as well. -/
theorem predictionMatrix_dominant (s : List ℚ) (i : Nat) (h : i < s.length) :
    (isDominant s i = true ↔ s.get ⟨i, h⟩ = maxProb s) ∧
    (∃ j, ∃ hj : j < s.length, s.get ⟨j, hj⟩ = maxProb s ∧ isDominant s j = true) ∧
    (∀ x ∈ s, x ≤ maxProb s) := by
  have hget : ∀ (k : Nat) (hk : k < s.length), s.getD k 0 = s.get ⟨k, hk⟩ :=
    fun k hk => getD_eq_get s k hk
  refine ⟨?_, ?_, le_maxProb s⟩
  · rw [isDominant, decide_eq_true_iff, hget i h]
  · have hne : s ≠ [] := by
      intro hnil
      rw [hnil] at h
      exact absurd h (by simp)
    obtain ⟨⟨j, hj⟩, hjv⟩ := List.mem_iff_get.mp (maxProb_mem s hne)
    refine ⟨j, hj, hjv, ?_⟩
    rw [isDominant, decide_eq_true_iff, hget j hj, hjv]

/-- C6 witness: the first cell of a concrete strategy row is dominant. -/
theorem predictionMatrix_dominant_witness :
    isDominant [(1 : ℚ), 0] 0 = true := by
  refine ((predictionMatrix_dominant [(1 : ℚ), 0] 0 (by norm_num)).1).mpr ?_
  show (1 : ℚ) = maxProb [(1 : ℚ), 0]
  rw [maxProb, List.foldl_cons, List.foldl_nil, max_eq_left (by norm_num : (0 : ℚ) ≤ 1)]

/-- Helper: with no interval active, no further poll runs. -/
theorem pollRun_of_none (s : ViewState) (hs : s.intervalMs = none) :
    ∀ rs, pollRun s rs = s := by
  intro rs
  cases rs <;> simp [pollRun, hs]

/-- C2: under the orchestrator contract that a completed status carries
its result payload, a poll that observes a terminal status (completed or
failed) clears the polling interval, removes the stored job id, and no
further poll ever runs for that job; a poll that observes pending or
running leaves a 2000 ms interval active, so the next poll comes 2000
milliseconds later and polling continues until a terminal status is
observed. -/
theorem polling_terminal_stops (r : StatusResponse) (s : ViewState)
    (rs : List StatusResponse)
    (hres : r.status = .completed → r.hasResult = true) :
    ((r.status = .completed ∨ r.status = .failed) →
      (checkJobStatus r s).intervalMs = none ∧ (checkJobStatus r s).stored = none ∧
      pollRun (checkJobStatus r s) rs = checkJobStatus r s) ∧
    ((r.status = .pending ∨ r.status = .running) →
      (s.intervalMs = none ∨ s.intervalMs = some 2000) →
      (checkJobStatus r s).intervalMs = some 2000) := by
  constructor
  · intro hterm
    have hcl : (checkJobStatus r s).intervalMs = none ∧ (checkJobStatus r s).stored = none := by
      rcases hterm with hc | hf
      · have hr := hres hc
        simp [checkJobStatus, hc, hr]
      · simp [checkJobStatus, hf]
    exact ⟨hcl.1, hcl.2, pollRun_of_none _ hcl.1 rs⟩
  · intro hpr hint
    rcases hpr with hp | hp <;> rcases hint with h | h <;>
      simp [checkJobStatus, hp, h]

/-- C2 witness: the terminal branch of `polling_terminal_stops` at a
concrete completed response and polling state. -/
theorem polling_terminal_stops_witness :
    (checkJobStatus
      { status := .completed, progress := 1, current_step := some "done",
        hasResult := true, error := none }
      { jobId := some "j1", progress := 1/2, currentStep := "solving",
        jobStatus := some .running, hasData := false, error := none,
        intervalMs := some 2000, stored := some "j1" }).intervalMs = none :=
  ((polling_terminal_stops _ _ [] (fun _ => rfl)).1 (Or.inl rfl)).1

/-- C3: a successful submission immediately records the returned job id
with status pending, persists the id, and starts polling that id; a mount
that finds a persisted id resumes polling the same job; and within the
polling logic the persisted id is removed exactly when the poll observes
completed or failed (completed responses carrying their result, per the
orchestrator contract) — so a poll-in-progress survives a page reload. -/
theorem job_id_persistence (resp : StartResponse) (sv : ViewState)
    (r : StatusResponse) (s : ViewState) (id : String)
    (hstored : s.stored = some id)
    (hres : r.status = .completed → r.hasResult = true) :
    (handleRunBacktest resp sv).1.jobId = some resp.job_id ∧
    (handleRunBacktest resp sv).1.jobStatus = some .pending ∧
    (handleRunBacktest resp sv).1.stored = some resp.job_id ∧
    (handleRunBacktest resp sv).2 = resp.job_id ∧
    (mountEffect s).2 = s.stored ∧
    (mountEffect s).1.jobId = some id ∧
    ((checkJobStatus r s).stored = none ↔
      (r.status = .completed ∨ r.status = .failed)) := by
  refine ⟨rfl, rfl, rfl, rfl, by simp [mountEffect, hstored],
          by simp [mountEffect, hstored], ?_⟩
  cases hst : r.status with
  | pending => simp [checkJobStatus, hst, hstored]
  | running => simp [checkJobStatus, hst, hstored]
  | completed =>
      have hr := hres hst
      simp [checkJobStatus, hst, hr]
  | failed => simp [checkJobStatus, hst]

/-- C3 witness: `job_id_persistence` at a concrete submission, stored id
and running response. -/
theorem job_id_persistence_witness :
    (handleRunBacktest
      { job_id := "abc", status := "pending", message := "started" }
      { jobId := none, progress := 0, currentStep := "", jobStatus := none,
        hasData := false, error := none, intervalMs := none,
        stored := none }).1.stored = some "abc" :=
  (job_id_persistence _ _
    { status := .running, progress := 0, current_step := none,
      hasResult := false, error := none }
    { jobId := none, progress := 0, currentStep := "", jobStatus := none,
      hasData := false, error := none, intervalMs := none,
      stored := some "xyz" }
    "xyz" rfl (fun hc => JobStatus.noConfusion hc)).2.2.1

/-- C9: a persistence round-trip (select fields, store, rehydrate)
restores `currentDate` (through the ISO string), `activeView` and
`useOptimizedModel` to their previous values, and resets
`selectedCountry` to its initial value `none`, whatever it held before the
reload and whatever the reload-time clock reads. -/
theorem appStore_roundtrip :
    ∀ (now : DateMs) (s : AppState),
      rehydrate now (persistPartial s) =
        { currentDate := s.currentDate, activeView := s.activeView,
          selectedCountry := none, useOptimizedModel := s.useOptimizedModel } :=
  fun _ _ => rfl

/-- Helper: the catalog total is the four-way sum of the strategy. -/
theorem total_eq (σ : GameAction → ℚ) :
    total σ = σ .hawkish + σ .deescalate + σ .stimulus + σ .military := by
  simp [total, allActions]
  ring

/-- Helper: summing an equality indicator over the catalog picks out the
single matching action. -/
theorem sum_single (x : GameAction) (c : ℚ) :
    (allActions.map fun a => if a = x then c else 0).sum = c := by
  cases x <;> simp [allActions]

/-- Helper: summing a membership indicator over the catalog counts the
members of a duplicate-free action list. -/
theorem sum_indicator (allowed : List GameAction) (c : ℚ) :
    allowed.Nodup →
    (allActions.map fun a => if a ∈ allowed then c else 0).sum
      = allowed.length * c := by
  induction allowed with
  | nil => intro _; simp
  | cons x rest ih =>
      intro hnd
      rw [List.nodup_cons] at hnd
      obtain ⟨hx, hrest⟩ := hnd
      have hsplit : ∀ a : GameAction,
          (if a ∈ x :: rest then c else 0)
            = (if a = x then c else 0) + (if a ∈ rest then c else 0) := by
        intro a
        by_cases hax : a = x
        · subst hax
          simp [hx]
        · by_cases har : a ∈ rest
          · simp [hax, har, List.mem_cons]
          · simp [hax, har, List.mem_cons]
      calc (allActions.map fun a => if a ∈ x :: rest then c else 0).sum
          = (allActions.map fun a =>
              (if a = x then c else 0) + (if a ∈ rest then c else 0)).sum := by
            simp only [hsplit]
        _ = (allActions.map fun a => if a = x then c else 0).sum
              + (allActions.map fun a => if a ∈ rest then c else 0).sum :=
            List.sum_map_add
        _ = c + rest.length * c := by rw [sum_single, ih hrest]
        _ = (x :: rest).length * c := by
            rw [List.length_cons]
            push_cast
            ring

/-- Helper: the starting iterate has total mass one on a valid allowed
set. -/
theorem total_uniformOn (allowed : List GameAction) (hne : allowed ≠ [])
    (hnd : allowed.Nodup) : total (uniformOn allowed) = 1 := by
  have hlen : (allowed.length : ℚ) ≠ 0 :=
    Nat.cast_ne_zero.mpr (fun h0 => hne (List.length_eq_zero.mp h0))
  unfold total uniformOn
  rw [sum_indicator allowed ((1 : ℚ) / allowed.length) hnd, mul_one_div,
    div_self hlen]

/-- Helper: the argmax of a non-empty action list exists. -/
theorem argmaxPayoff_isSome (payoff : GameAction → ℚ) (l : List GameAction)
    (hne : l ≠ []) : ∃ b, argmaxPayoff payoff l = some b := by
  cases l with
  | nil => exact absurd rfl hne
  | cons a rest =>
      rw [argmaxPayoff]
      split
      · exact ⟨_, rfl⟩
      · split
        · exact ⟨_, rfl⟩
        · exact ⟨_, rfl⟩

/-- Helper: the argmax is a member of the list it was taken over. -/
theorem argmaxPayoff_mem (payoff : GameAction → ℚ) :
    ∀ (l : List GameAction) (b : GameAction),
      argmaxPayoff payoff l = some b → b ∈ l := by
  intro l
  induction l with
  | nil => exact fun b h => Option.noConfusion h
  | cons a rest ih =>
      intro b h
      rw [argmaxPayoff] at h
      split at h
      · obtain rfl := Option.some.inj h
        exact List.mem_cons_self _ rest
      · rename_i m hr
        split at h
        · obtain rfl := Option.some.inj h
          exact List.mem_cons_of_mem a (ih _ hr)
        · obtain rfl := Option.some.inj h
          exact List.mem_cons_self _ rest

/-- Helper: a best response over a valid allowed set has total mass one. -/
theorem total_bestResponse (allowed : List GameAction)
    (payoff : GameAction → ℚ) (hne : allowed ≠ []) :
    total (bestResponse allowed payoff) = 1 := by
  obtain ⟨b, hb⟩ := argmaxPayoff_isSome payoff allowed hne
  unfold bestResponse
  rw [hb, total_eq]
  cases b <;> simp

/-- Helper: a best response puts no mass outside the allowed set. -/
theorem bestResponse_support (allowed : List GameAction)
    (payoff : GameAction → ℚ) (a : GameAction) (ha : a ∉ allowed) :
    bestResponse allowed payoff a = 0 := by
  unfold bestResponse
  cases hb : argmaxPayoff payoff allowed with
  | none => rfl
  | some b =>
      have hbmem := argmaxPayoff_mem payoff allowed b hb
      have hab : a ≠ b := fun hEq => ha (hEq ▸ hbmem)
      simp [hab]

/-- Helper: the catalog total is linear in a damped convex step. -/
theorem total_step (σ τ : GameAction → ℚ) (lam : ℚ) :
    total (fun a => (1 - lam) * σ a + lam * τ a)
      = (1 - lam) * total σ + lam * total τ := by
  simp only [total_eq]
  ring

/-- Helper: every solver iterate over a valid actor slice is a signed
distribution of total mass one supported inside the allowed set. -/
theorem nashIterate_invariant (A : ActorSpec) (lam : ℚ) (k : Nat)
    (hne : A.allowed ≠ []) (hnd : A.allowed.Nodup) :
    total (nashIterate A lam k) = 1 ∧
    ∀ a, a ∉ A.allowed → nashIterate A lam k a = 0 := by
  induction k with
  | zero =>
      refine ⟨total_uniformOn A.allowed hne hnd, ?_⟩
      intro a ha
      simp [nashIterate, uniformOn, ha]
  | succ k ih =>
      obtain ⟨ih1, ih2⟩ := ih
      have hstep : nashIterate A lam (k + 1)
          = fun a => (1 - lam) * nashIterate A lam k a
              + lam * bestResponse A.allowed (A.payoffAt k) a := rfl
      constructor
      · rw [hstep, total_step, ih1, total_bestResponse A.allowed _ hne]
        ring
      · intro a ha
        have happ : nashIterate A lam (k + 1) a
            = (1 - lam) * nashIterate A lam k a
              + lam * bestResponse A.allowed (A.payoffAt k) a := rfl
        rw [happ, ih2 a ha, bestResponse_support A.allowed _ a ha]
        ring

/-- C8 (modelled from the spec): for every actor slice of a valid
`PayoffMatrix` — allowed-action set non-empty (a ConfigurationError is
raised at setup otherwise) and duplicate-free — the strategy the solver
returns after any iteration budget has probability mass summing to 1 over
the action catalog, hence within the 1e-6 tolerance of 1, and is exactly
zero on every action outside the actor's allowed set. -/
theorem solver_distribution (A : ActorSpec) (lam : ℚ) (k : Nat)
    (hne : A.allowed ≠ []) (hnd : A.allowed.Nodup) :
    |total (nashIterate A lam k) - 1| ≤ 1 / 1000000 ∧
    total (nashIterate A lam k) = 1 ∧
    ∀ a, a ∉ A.allowed → nashIterate A lam k a = 0 := by
  obtain ⟨h1, h2⟩ := nashIterate_invariant A lam k hne hnd
  refine ⟨?_, h1, h2⟩
  rw [h1]
  norm_num

/-- C8 witness: the invariant at a concrete two-action actor, damping 1/2,
three sweeps. -/
theorem solver_distribution_witness :
    total (nashIterate
      { allowed := [GameAction.hawkish, GameAction.deescalate],
        payoffAt := fun _ _ => 1 } (1 / 2) 3) = 1 :=
  (solver_distribution
    { allowed := [GameAction.hawkish, GameAction.deescalate],
      payoffAt := fun _ _ => 1 } (1 / 2) 3
    (by decide) (by decide)).2.1

end GameTheory
